import Mathlib

/-!
Verification development for the tabular helper functions of
`cor_funcoes.py` (Column Partitioner, Column Excluder, Row Cleaner,
Attrition Detector, Numeric Normalizer).

A pandas `DataFrame` is modelled column-major: an ordered list of named
columns, each holding a list of scalar cells.  A cell is either the
missing-value marker `NaN`, a number (modelled as a rational), or a
string.  Rows are aligned by position; `nrows` is the length of the
first column, as every real `DataFrame` has equally long columns.
-/

namespace CorFuncoes

/-- A scalar cell of a table: the missing-value marker (`NaN`), a number,
or a string. -/
inductive Val where
  | na : Val
  | num : ℚ → Val
  | str : String → Val
deriving DecidableEq

/-- Whether a cell is the missing-value marker (`pd.isna`). -/
def Val.isNA : Val → Bool
  | .na => true
  | _ => false

/-- A table: an ordered list of named columns.  Mirrors a pandas
`DataFrame` with its `columns` in order and the cells of each column. -/
abbrev Table := List (String × List Val)

/-- The ordered list of column names (`df.columns`). -/
def header (df : Table) : List String := df.map (fun c => c.1)

/-- Column lookup by name (`df[name]` when the name occurs once);
`none` when the column is absent, which pandas reports as a `KeyError`. -/
def getCol (df : Table) (name : String) : Option (List Val) :=
  (df.find? (fun c => c.1 == name)).map (fun c => c.2)

/-- Substring test: Python's `f in c` on strings. -/
def substrB (f c : String) : Bool := decide (f.toList <:+: c.toList)

/-- Number of rows of a table (`len(df)`): length of the first column,
`0` for a table with no columns. -/
def nrows (df : Table) : Nat :=
  match df with
  | [] => 0
  | c :: _ => c.2.length

/-- `filter_columns df filters` from `cor_funcoes.py`: marks each column
whose name contains any of the exclusion substrings as unselected and
returns the remaining columns in their original positional order
(`df[df.columns[selected_columns]]`).  The function is pure: the input
table is never modified. -/
def filter_columns (df : Table) (filters : List String) : Table :=
  df.filter (fun c => !(filters.any (fun f => substrB f c.1)))

/-- C3: for every table and exclusion list, `filter_columns` returns
exactly the columns whose name contains none of the exclusion
substrings, and (being a positional filter) keeps them in their
original order; the input table is a value and is not mutated. -/
theorem c3_excluder (df : Table) (filters : List String) :
    (∀ c, c ∈ filter_columns df filters ↔
      c ∈ df ∧ ∀ f ∈ filters, substrB f c.1 = false)
    ∧ (filter_columns df filters).Sublist df := by
  constructor
  · intro c
    simp [filter_columns, List.mem_filter, List.any_eq_true]
  · exact List.filter_sublist df

/-- Concrete instance of `c3_excluder`: the table with columns
`NOME, MAT_2020, MAT_2021` and exclusion list `["2020"]`. -/
theorem c3_excluder_witness :
    (∀ c, c ∈ filter_columns
        [("NOME", [Val.str "Ana"]), ("MAT_2020", [Val.num 1]),
         ("MAT_2021", [Val.num 2])] ["2020"] ↔
      c ∈ [("NOME", [Val.str "Ana"]), ("MAT_2020", [Val.num 1]),
         ("MAT_2021", [Val.num 2])] ∧
        ∀ f ∈ ["2020"], substrB f c.1 = false)
    ∧ (filter_columns
        [("NOME", [Val.str "Ana"]), ("MAT_2020", [Val.num 1]),
         ("MAT_2021", [Val.num 2])] ["2020"]).Sublist
        [("NOME", [Val.str "Ana"]), ("MAT_2020", [Val.num 1]),
         ("MAT_2021", [Val.num 2])] :=
  c3_excluder _ _

/-- The first filter (in list order) whose substring occurs in the
column name `c` — the filter at which the inner loop of
`filter_columns_multiple` does `break`. -/
def firstFilter (filters : List String) (c : String) : Option String :=
  filters.find? (fun f => substrB f c)

/-- The column names assigned to the group of filter `f` by
`filter_columns_multiple`: the columns (in original order) whose first
matching filter is `f`. -/
def colsFor (df : Table) (filters : List String) (f : String) : List String :=
  (header df).filter (fun c => firstFilter filters c == some f)

/-- Keys of the dict `{filter_: [] for filter_ in filters}`: the filters
with duplicates removed, keeping the first occurrence of each. -/
def dedupFirst : List String → List String
  | [] => []
  | f :: fs => f :: dedupFirst (fs.filter (fun g => g != f))
termination_by l => l.length
decreasing_by
  simp only [List.length_cons]
  exact Nat.lt_succ_of_le (List.length_filter_le _ _)

/-- Column selection by names (`df[columns]`): the named columns in the
order of `names`, each with its cells. -/
def selectCols (df : Table) (names : List String) : Table :=
  names.filterMap (fun n => (df.find? (fun c => c.1 == n)).map (fun c => (n, c.2)))

/-- `filter_columns_multiple df filters` from `cor_funcoes.py`: one
group per (distinct) filter, in filter order; each column of `df` is
appended to the group of the first filter its name contains (`break`
prevents later filters from receiving it), and each group's table is
`df[columns]` for the collected column names. -/
def filter_columns_multiple (df : Table) (filters : List String) :
    List (String × Table) :=
  (dedupFirst filters).map (fun f => (f, selectCols df (colsFor df filters f)))

theorem mem_dedupFirst (x : String) (l : List String) :
    x ∈ dedupFirst l ↔ x ∈ l := by
  have key : ∀ n (l : List String), l.length ≤ n → (x ∈ dedupFirst l ↔ x ∈ l) := by
    intro n
    induction n with
    | zero =>
      intro l hl
      rw [Nat.le_zero, List.length_eq_zero] at hl
      subst hl
      simp [dedupFirst]
    | succ n ih =>
      intro l hl
      match l with
      | [] => simp [dedupFirst]
      | f :: fs =>
        rw [dedupFirst]
        have hlen : (fs.filter (fun g => g != f)).length ≤ n :=
          le_trans (List.length_filter_le _ _) (Nat.le_of_succ_le_succ hl)
        rw [List.mem_cons, List.mem_cons, ih _ hlen, List.mem_filter]
        constructor
        · rintro (h | ⟨h, _⟩)
          · exact Or.inl h
          · exact Or.inr h
        · rintro (h | h)
          · exact Or.inl h
          · by_cases hx : x = f
            · exact Or.inl hx
            · exact Or.inr ⟨h, by simpa using hx⟩
  exact key l.length l le_rfl

theorem nodup_dedupFirst (l : List String) : (dedupFirst l).Nodup := by
  have key : ∀ n (l : List String), l.length ≤ n → (dedupFirst l).Nodup := by
    intro n
    induction n with
    | zero =>
      intro l hl
      rw [Nat.le_zero, List.length_eq_zero] at hl
      subst hl
      simp [dedupFirst]
    | succ n ih =>
      intro l hl
      match l with
      | [] => simp [dedupFirst]
      | f :: fs =>
        rw [dedupFirst]
        have hlen : (fs.filter (fun g => g != f)).length ≤ n :=
          le_trans (List.length_filter_le _ _) (Nat.le_of_succ_le_succ hl)
        rw [List.nodup_cons]
        refine ⟨fun hmem => ?_, ih _ hlen⟩
        rw [mem_dedupFirst, List.mem_filter] at hmem
        simpa using hmem.2
  exact key l.length l le_rfl

theorem exists_find?_of_mem_header (df : Table) (n : String)
    (h : n ∈ header df) :
    ∃ c, df.find? (fun c => c.1 == n) = some c := by
  rw [← Option.isSome_iff_exists]
  rw [List.find?_isSome]
  unfold header at h
  obtain ⟨col, hcol, hname⟩ := List.mem_map.mp h
  exact ⟨col, hcol, by simpa using hname⟩

theorem selectCols_map_fst (df : Table) (names : List String)
    (h : ∀ n ∈ names, n ∈ header df) :
    (selectCols df names).map (fun c => c.1) = names := by
  induction names with
  | nil => simp [selectCols]
  | cons n ns ih =>
    obtain ⟨c, hc⟩ := exists_find?_of_mem_header df n (h n (by simp))
    unfold selectCols
    rw [List.filterMap_cons]
    simp only [hc, Option.map_some']
    rw [List.map_cons]
    have := ih (fun m hm => h m (by simp [hm]))
    unfold selectCols at this
    rw [this]

theorem mem_colsFor (df : Table) (filters : List String) (c f : String) :
    c ∈ colsFor df filters f ↔ c ∈ header df ∧ firstFilter filters c = some f := by
  simp [colsFor, List.mem_filter]

/-- C1: `filter_columns_multiple` produces one group per distinct filter
(in first-occurrence order); each group's columns are exactly the
columns of `df` whose first matching filter (in list order) is that
group's filter; the groups are pairwise disjoint in column membership;
a column matching no filter lies in no group, and a column matching
some filter lies in the group of its first match — so the groups plus
the unmatched columns recover exactly the column set, and the function
is total (no error is raised for unmatched columns). -/
theorem c1_partitioner (df : Table) (filters : List String) :
    ((filter_columns_multiple df filters).map Prod.fst = dedupFirst filters)
    ∧ (∀ f T, (f, T) ∈ filter_columns_multiple df filters →
        header T = colsFor df filters f)
    ∧ (∀ c f, c ∈ colsFor df filters f ↔
        c ∈ header df ∧ firstFilter filters c = some f)
    ∧ List.Pairwise
        (fun f g => ∀ c, c ∈ colsFor df filters f → c ∉ colsFor df filters g)
        (dedupFirst filters)
    ∧ (∀ c, c ∈ header df → firstFilter filters c = none →
        ∀ f, c ∉ colsFor df filters f)
    ∧ (∀ c, c ∈ header df → (∃ f, firstFilter filters c = some f) →
        ∃ f ∈ dedupFirst filters, c ∈ colsFor df filters f) := by
  refine ⟨?_, ?_, mem_colsFor df filters, ?_, ?_, ?_⟩
  · unfold filter_columns_multiple
    rw [List.map_map]
    have h : ∀ x ∈ dedupFirst filters,
        (Prod.fst ∘ fun f => (f, selectCols df (colsFor df filters f))) x = id x :=
      fun x _ => rfl
    rw [List.map_congr_left h, List.map_id]
  · intro f T hmem
    unfold filter_columns_multiple at hmem
    obtain ⟨f', _, heq⟩ := List.mem_map.mp hmem
    rw [Prod.mk.injEq] at heq
    obtain ⟨rfl, rfl⟩ := heq
    exact selectCols_map_fst df _ (fun n hn => ((mem_colsFor df filters n f').mp hn).1)
  · have hnd := nodup_dedupFirst filters
    refine List.Pairwise.imp_of_mem ?_ hnd
    intro f g _ _ hfg c hcf hcg
    rw [mem_colsFor] at hcf hcg
    exact hfg (Option.some.inj (hcf.2 ▸ hcg.2))
  · intro c _ hnone f hmem
    rw [mem_colsFor] at hmem
    rw [hmem.2] at hnone
    exact Option.some_ne_none f hnone
  · intro c hc ⟨f, hf⟩
    refine ⟨f, ?_, (mem_colsFor df filters c f).mpr ⟨hc, hf⟩⟩
    rw [mem_dedupFirst]
    exact List.mem_of_find?_eq_some hf

/-- Concrete instance of `c1_partitioner`: columns
`NOME, MAT_2020, MAT_2021` with filters `["2020", "2021"]` — the spec's
worked example. -/
theorem c1_partitioner_witness :
    (((filter_columns_multiple
        [("NOME", [Val.str "Ana"]), ("MAT_2020", [Val.num 1]),
         ("MAT_2021", [Val.num 2])] ["2020", "2021"]).map Prod.fst
        = dedupFirst ["2020", "2021"]))
    ∧ (∀ f T, (f, T) ∈ filter_columns_multiple
        [("NOME", [Val.str "Ana"]), ("MAT_2020", [Val.num 1]),
         ("MAT_2021", [Val.num 2])] ["2020", "2021"] →
        header T = colsFor
          [("NOME", [Val.str "Ana"]), ("MAT_2020", [Val.num 1]),
           ("MAT_2021", [Val.num 2])] ["2020", "2021"] f)
    ∧ (∀ c f, c ∈ colsFor
          [("NOME", [Val.str "Ana"]), ("MAT_2020", [Val.num 1]),
           ("MAT_2021", [Val.num 2])] ["2020", "2021"] f ↔
        c ∈ header
          [("NOME", [Val.str "Ana"]), ("MAT_2020", [Val.num 1]),
           ("MAT_2021", [Val.num 2])]
          ∧ firstFilter ["2020", "2021"] c = some f)
    ∧ List.Pairwise
        (fun f g => ∀ c, c ∈ colsFor
            [("NOME", [Val.str "Ana"]), ("MAT_2020", [Val.num 1]),
             ("MAT_2021", [Val.num 2])] ["2020", "2021"] f →
          c ∉ colsFor
            [("NOME", [Val.str "Ana"]), ("MAT_2020", [Val.num 1]),
             ("MAT_2021", [Val.num 2])] ["2020", "2021"] g)
        (dedupFirst ["2020", "2021"])
    ∧ (∀ c, c ∈ header
          [("NOME", [Val.str "Ana"]), ("MAT_2020", [Val.num 1]),
           ("MAT_2021", [Val.num 2])] →
        firstFilter ["2020", "2021"] c = none →
        ∀ f, c ∉ colsFor
          [("NOME", [Val.str "Ana"]), ("MAT_2020", [Val.num 1]),
           ("MAT_2021", [Val.num 2])] ["2020", "2021"] f)
    ∧ (∀ c, c ∈ header
          [("NOME", [Val.str "Ana"]), ("MAT_2020", [Val.num 1]),
           ("MAT_2021", [Val.num 2])] →
        (∃ f, firstFilter ["2020", "2021"] c = some f) →
        ∃ f ∈ dedupFirst ["2020", "2021"], c ∈ colsFor
          [("NOME", [Val.str "Ana"]), ("MAT_2020", [Val.num 1]),
           ("MAT_2021", [Val.num 2])] ["2020", "2021"] f) :=
  c1_partitioner _ _

/-- Generic per-row test used by both stages of `cleaning_dataset`:
row `i` is kept when some column whose name satisfies `p` holds a
non-missing cell at position `i`. -/
def keepGen (p : String → Bool) (df : Table) (i : Nat) : Bool :=
  df.any (fun c => p c.1 && !(c.2.getD i Val.na).isNA)

/-- Stage (a) of `cleaning_dataset`:
`df.dropna(subset=df.columns.difference(['NOME']), how='all')` keeps
row `i` iff some column other than `NOME` is non-missing there. -/
def keepStage1 (df : Table) (i : Nat) : Bool :=
  keepGen (fun n => n != "NOME") df i

/-- Stage (b) of `cleaning_dataset`: `_df[~_df.isna().all(axis=1)]`
keeps row `i` iff some column (any name) is non-missing there. -/
def keepStage2 (df : Table) (i : Nat) : Bool :=
  keepGen (fun _ => true) df i

/-- Row selection by a boolean mask over row indices: every column keeps
exactly the cells at the indices `i < nrows df` with `m i = true`, in
increasing index order — how pandas realises `dropna` and boolean row
indexing on a `DataFrame` (whose columns all have length `nrows df`). -/
def filterRows (df : Table) (m : Nat → Bool) : Table :=
  df.map (fun c =>
    (c.1, ((List.range (nrows df)).filter m).map (fun i => c.2.getD i Val.na)))

/-- `cleaning_dataset df` from `cor_funcoes.py`: stage (a) drops rows
whose every non-`NOME` column is missing, then stage (b) drops rows of
the intermediate table whose every column is missing. -/
def cleaning_dataset (df : Table) : Table :=
  filterRows (filterRows df (keepStage1 df))
    (keepStage2 (filterRows df (keepStage1 df)))

theorem getD_map_of_lt {α β : Type} (f : α → β) (l : List α) (j : Nat)
    (h : j < l.length) (d : β) (d' : α) :
    (l.map f).getD j d = f (l.getD j d') := by
  induction l generalizing j with
  | nil => exact absurd h (by simp)
  | cons a as ih =>
    match j with
    | 0 => rfl
    | j + 1 => exact ih j (by simpa using h)

theorem range_map_getD (l : List Val) (d : Val) :
    (List.range l.length).map (fun i => l.getD i d) = l := by
  induction l with
  | nil => simp
  | cons v vs ih =>
    rw [List.length_cons, List.range_succ_eq_map, List.map_cons, List.map_map]
    show (v :: vs).getD 0 d :: _ = v :: vs
    have h : ∀ i ∈ List.range vs.length,
        ((fun i => (v :: vs).getD i d) ∘ Nat.succ) i = vs.getD i d :=
      fun i _ => rfl
    rw [List.map_congr_left h, ih]
    rfl

theorem filter_range_eq_self (q : Nat → Bool) (n : Nat)
    (h : ∀ j < n, q j = true) :
    (List.range n).filter q = List.range n :=
  List.filter_eq_self.mpr (fun j hj => h j (List.mem_range.mp hj))

theorem nrows_filterRows (c : String × List Val) (rest : Table) (m : Nat → Bool) :
    nrows (filterRows (c :: rest) m) =
      ((List.range (nrows (c :: rest))).filter m).length := by
  simp [filterRows, nrows]

theorem length_col_filterRows (df : Table) (m : Nat → Bool)
    (c : String × List Val) (hc : c ∈ filterRows df m) :
    c.2.length = ((List.range (nrows df)).filter m).length := by
  unfold filterRows at hc
  obtain ⟨col, _, heq⟩ := List.mem_map.mp hc
  rw [← heq]
  simp

theorem keepGen_filterRows (p : String → Bool) (df : Table) (m : Nat → Bool)
    (j : Nat) (hj : j < ((List.range (nrows df)).filter m).length) :
    keepGen p (filterRows df m) j =
      keepGen p df (((List.range (nrows df)).filter m).getD j 0) := by
  unfold keepGen filterRows
  rw [List.any_map]
  have hfn : ((fun c : String × List Val => p c.1 && !(c.2.getD j Val.na).isNA) ∘
        (fun c : String × List Val =>
          (c.1, ((List.range (nrows df)).filter m).map (fun i => c.2.getD i Val.na))))
      = (fun c : String × List Val =>
          p c.1 && !(c.2.getD (((List.range (nrows df)).filter m).getD j 0) Val.na).isNA) := by
    funext c
    simp only [Function.comp]
    rw [getD_map_of_lt _ _ j hj Val.na 0]
  rw [hfn]

theorem filterRows_eq_self (df' : Table) (q : Nat → Bool)
    (hlen : ∀ c ∈ df', c.2.length = nrows df')
    (hq : ∀ j, j < nrows df' → q j = true) :
    filterRows df' q = df' := by
  unfold filterRows
  rw [filter_range_eq_self q _ hq]
  have h : ∀ c ∈ df', (fun c : String × List Val =>
      (c.1, (List.range (nrows df')).map (fun i => c.2.getD i Val.na))) c = id c := by
    intro c hc
    simp only [id]
    rw [← hlen c hc, range_map_getD]
  rw [List.map_congr_left h, List.map_id]

theorem getD_filter_range (m : Nat → Bool) (n j : Nat)
    (hj : j < ((List.range n).filter m).length) :
    m (((List.range n).filter m).getD j 0) = true := by
  rw [List.getD_eq_getElem _ _ hj]
  have hmem := List.getElem_mem hj
  exact (List.mem_filter.mp hmem).2

theorem keepGen_imp (p q : String → Bool) (df : Table) (i : Nat)
    (hpq : ∀ n, p n = true → q n = true)
    (h : keepGen p df i = true) : keepGen q df i = true := by
  unfold keepGen at h ⊢
  rw [List.any_eq_true] at h ⊢
  obtain ⟨c, hc, hp⟩ := h
  rw [Bool.and_eq_true] at hp
  refine ⟨c, hc, ?_⟩
  rw [Bool.and_eq_true]
  exact ⟨hpq c.1 hp.1, hp.2⟩

theorem stage_noop (df : Table) (p : String → Bool) (m : Nat → Bool)
    (h : ∀ i, m i = true → keepGen p df i = true) :
    filterRows (filterRows df m) (keepGen p (filterRows df m)) = filterRows df m := by
  match df with
  | [] => rfl
  | c0 :: rest =>
    refine filterRows_eq_self _ _ ?_ ?_
    · intro c hc
      rw [length_col_filterRows _ _ c hc, nrows_filterRows]
    · intro j hj
      rw [nrows_filterRows] at hj
      rw [keepGen_filterRows p _ m j hj]
      exact h _ (getD_filter_range m _ j hj)

theorem cleaning_eq_stage1 (df : Table) :
    cleaning_dataset df = filterRows df (keepStage1 df) := by
  unfold cleaning_dataset keepStage2
  exact stage_noop df _ _
    (fun i hi => keepGen_imp _ _ df i (fun n _ => rfl) hi)

theorem filterRows_congr (df : Table) (m m' : Nat → Bool)
    (h : (List.range (nrows df)).filter m = (List.range (nrows df)).filter m') :
    filterRows df m = filterRows df m' := by
  unfold filterRows
  rw [h]

/-- C5: for every table with identifier column `NOME`, `cleaning_dataset`
keeps exactly the rows surviving both stages — those with a non-missing
cell in some non-`NOME` column (stage a) and a non-missing cell in some
column at all (stage b) — and the kept row indices are strictly
increasing, so the surviving rows appear in their original relative
order. -/
theorem c5_row_cleaner (df : Table) (_hN : "NOME" ∈ header df) :
    cleaning_dataset df =
      filterRows df (fun i => keepStage1 df i && keepStage2 df i)
    ∧ List.Pairwise (· < ·)
        ((List.range (nrows df)).filter
          (fun i => keepStage1 df i && keepStage2 df i)) := by
  constructor
  · rw [cleaning_eq_stage1]
    refine filterRows_congr df _ _ (List.filter_congr ?_)
    intro i _
    cases hb : keepStage1 df i with
    | false => simp
    | true =>
      have h2 : keepStage2 df i = true := by
        unfold keepStage1 at hb
        unfold keepStage2
        exact keepGen_imp _ _ df i (fun n _ => rfl) hb
      simp [h2]
  · exact List.Pairwise.sublist (List.filter_sublist _) (List.pairwise_lt_range _)

/-- Concrete instance of `c5_row_cleaner` on a two-column, two-row
table whose rows are all dropped by stage (a). -/
theorem c5_row_cleaner_witness :
    (cleaning_dataset [("NOME", [Val.str "Ana", Val.na]), ("NOTA", [Val.na, Val.na])] =
      filterRows [("NOME", [Val.str "Ana", Val.na]), ("NOTA", [Val.na, Val.na])]
        (fun i => keepStage1 [("NOME", [Val.str "Ana", Val.na]), ("NOTA", [Val.na, Val.na])] i
          && keepStage2 [("NOME", [Val.str "Ana", Val.na]), ("NOTA", [Val.na, Val.na])] i))
    ∧ List.Pairwise (· < ·)
        ((List.range (nrows [("NOME", [Val.str "Ana", Val.na]), ("NOTA", [Val.na, Val.na])])).filter
          (fun i => keepStage1 [("NOME", [Val.str "Ana", Val.na]), ("NOTA", [Val.na, Val.na])] i
            && keepStage2 [("NOME", [Val.str "Ana", Val.na]), ("NOTA", [Val.na, Val.na])] i)) :=
  c5_row_cleaner _ (by decide)

/-- C6: the Row Cleaner is idempotent — cleaning an already cleaned
table changes nothing, for every table. -/
theorem c6_cleaner_idempotent (df : Table) :
    cleaning_dataset (cleaning_dataset df) = cleaning_dataset df := by
  rw [cleaning_eq_stage1 df, cleaning_eq_stage1 (filterRows df (keepStage1 df))]
  unfold keepStage1
  exact stage_noop df _ _ (fun i hi => hi)

/-- Modelled from the spec: the one-stage cleaner that only drops rows
in which every non-identifier column is missing (stage (a) alone).
The refinement claim C9 compares `cleaning_dataset` against it. -/
def cleanerOneStage (df : Table) : Table :=
  filterRows df (keepStage1 df)

/-- C9: for every table with at least one column other than `NOME`, the
second stage of `cleaning_dataset` removes no additional rows: the
two-stage cleaner coincides with the one-stage cleaner that only drops
rows whose every non-identifier column is missing. -/
theorem c9_stage2_redundant (df : Table)
    (_h : ∃ c ∈ df, c.1 ≠ "NOME") :
    cleaning_dataset df = cleanerOneStage df :=
  cleaning_eq_stage1 df

/-- Concrete instance of `c9_stage2_redundant` on a table with a
non-identifier column. -/
theorem c9_stage2_redundant_witness :
    cleaning_dataset [("NOME", [Val.str "Ana"]), ("NOTA", [Val.num 5])] =
      cleanerOneStage [("NOME", [Val.str "Ana"]), ("NOTA", [Val.num 5])] :=
  c9_stage2_redundant _ (by decide)

/-- `calcular_desistentes df_anterior df_atual coluna_nome` from
`cor_funcoes.py`: `list(set(df_anterior[coluna_nome]) -
set(df_atual[coluna_nome]))`.  Reading `df[coluna_nome]` raises a
`KeyError` when the column is absent, modelled as the `error` branch.
Python's set-iteration order is implementation-defined and the spec
forbids callers to rely on it, so the set difference is realised here
as the deduplicated prior column filtered to the values absent from the
current column; the missing-value marker compares equal to itself. -/
def calcular_desistentes (dfAnterior dfAtual : Table) (colunaNome : String) :
    Except String (List Val) :=
  match getCol dfAnterior colunaNome, getCol dfAtual colunaNome with
  | some a, some b => .ok (a.dedup.filter (fun v => decide (v ∉ b)))
  | _, _ => .error "KeyError"

/-- C4: whenever the identifier column is present in both tables, the
Attrition Detector succeeds and returns, as a set, exactly the
identifier values of the prior table that are absent from the current
table; in particular the result is empty when the prior identifiers are
a subset of the current ones. -/
theorem c4_attrition (dfAnterior dfAtual : Table) (col : String) (a b : List Val)
    (ha : getCol dfAnterior col = some a) (hb : getCol dfAtual col = some b) :
    ∃ l, calcular_desistentes dfAnterior dfAtual col = .ok l
      ∧ (∀ v, v ∈ l ↔ v ∈ a ∧ v ∉ b)
      ∧ ((∀ v ∈ a, v ∈ b) → l = []) := by
  refine ⟨a.dedup.filter (fun v => decide (v ∉ b)), ?_, ?_, ?_⟩
  · unfold calcular_desistentes
    rw [ha, hb]
  · intro v
    simp [List.mem_filter, List.mem_dedup]
  · intro hsub
    rw [List.filter_eq_nil_iff]
    intro v hv
    rw [List.mem_dedup] at hv
    simp only [decide_eq_true_eq, Decidable.not_not]
    exact hsub v hv

/-- Concrete instance of `c4_attrition`: the spec's worked example,
prior identifiers `Ana, Bruno, Carla` and current `Ana, Carla`. -/
theorem c4_attrition_witness :
    ∃ l, calcular_desistentes
        [("NOME", [Val.str "Ana", Val.str "Bruno", Val.str "Carla"])]
        [("NOME", [Val.str "Ana", Val.str "Carla"])] "NOME" = .ok l
      ∧ (∀ v, v ∈ l ↔
          v ∈ [Val.str "Ana", Val.str "Bruno", Val.str "Carla"]
            ∧ v ∉ [Val.str "Ana", Val.str "Carla"])
      ∧ ((∀ v ∈ [Val.str "Ana", Val.str "Bruno", Val.str "Carla"],
          v ∈ [Val.str "Ana", Val.str "Carla"]) → l = []) :=
  c4_attrition _ _ "NOME" _ _ rfl rfl

/-- C10: a successful result of the Attrition Detector never contains a
duplicate identifier value, even when the prior table's identifier
column repeats a value. -/
theorem c10_no_duplicates (dfAnterior dfAtual : Table) (col : String)
    (l : List Val)
    (h : calcular_desistentes dfAnterior dfAtual col = .ok l) :
    l.Nodup := by
  unfold calcular_desistentes at h
  cases hA : getCol dfAnterior col with
  | none => rw [hA] at h; exact absurd h (by simp)
  | some a =>
    cases hB : getCol dfAtual col with
    | none => rw [hA, hB] at h; exact absurd h (by simp)
    | some b =>
      rw [hA, hB] at h
      rw [Except.ok.injEq] at h
      rw [← h]
      exact (List.nodup_dedup a).filter _

/-- Concrete instance of `c10_no_duplicates`: the prior column repeats
`Ana`, yet the result `[Bruno]` has no duplicates. -/
theorem c10_no_duplicates_witness :
    calcular_desistentes
        [("NOME", [Val.str "Ana", Val.str "Ana", Val.str "Bruno"])]
        [("NOME", [Val.str "Ana"])] "NOME" = .ok [Val.str "Bruno"]
      ∧ ([Val.str "Bruno"] : List Val).Nodup :=
  ⟨rfl, c10_no_duplicates
    [("NOME", [Val.str "Ana", Val.str "Ana", Val.str "Bruno"])]
    [("NOME", [Val.str "Ana"])] "NOME" [Val.str "Bruno"] rfl⟩

/-- C8 as stated is false: `calcular_desistentes` surfaces a `KeyError`
to the caller when the identifier column is absent — here on two empty
tables. -/
theorem c8_counterexample :
    calcular_desistentes ([] : Table) ([] : Table) "NOME" =
      .error "KeyError" := rfl

/-- C8 (amended): the Attrition Detector succeeds exactly when the
identifier column is present in both tables, and raises a `KeyError`
otherwise; the other four core functions are total and absorb their
failures. -/
theorem c8_amended (dfAnterior dfAtual : Table) (col : String) :
    (∃ l, calcular_desistentes dfAnterior dfAtual col = .ok l) ↔
      ((∃ a, getCol dfAnterior col = some a)
        ∧ (∃ b, getCol dfAtual col = some b)) := by
  cases hA : getCol dfAnterior col <;> cases hB : getCol dfAtual col <;>
    simp [calcular_desistentes, hA, hB]

/-- Concrete instance of `c8_amended`: with the identifier column
present in both tables the detector returns a successful result. -/
theorem c8_amended_witness :
    ∃ l, calcular_desistentes
        [("NOME", [Val.str "Ana"])] [("NOME", ([] : List Val))] "NOME" =
      .ok l :=
  (c8_amended _ _ "NOME").mpr ⟨⟨_, rfl⟩, ⟨_, rfl⟩⟩

/-- Digits to a natural number (most significant first). -/
def natOfDigits (cs : List Char) : Nat :=
  cs.foldl (fun n c => 10 * n + (c.toNat - 48)) 0

/-- Modelled numeric grammar of `pd.to_numeric` on strings: optional
surrounding spaces, optional sign, decimal digits with an optional
fractional part.  Strings outside this grammar are the "cannot be
parsed" case, which `errors='coerce'` turns into the missing-value
marker. -/
def parseRat (s : String) : Option ℚ :=
  let cs0 := ((s.toList.dropWhile (fun c => c == ' ')).reverse.dropWhile
    (fun c => c == ' ')).reverse
  let sign : ℚ := match cs0 with
    | '-' :: _ => -1
    | _ => 1
  let cs := match cs0 with
    | '-' :: rest => rest
    | '+' :: rest => rest
    | rest => rest
  let intPart := cs.takeWhile Char.isDigit
  let rest := cs.dropWhile Char.isDigit
  match rest with
  | [] =>
    if intPart.isEmpty then none
    else some (sign * (natOfDigits intPart : ℚ))
  | '.' :: frac =>
    if frac.all Char.isDigit && !(intPart.isEmpty && frac.isEmpty) then
      some (sign * ((natOfDigits intPart : ℚ)
        + (natOfDigits frac : ℚ) / 10 ^ frac.length))
    else none
  | _ => none

/-- Round half to even of a rational to an integer — the rounding used
by `numpy`/`pandas` `.round`. -/
def rhe (q : ℚ) : ℤ :=
  let f := ⌊q⌋
  if q - f < 1 / 2 then f
  else if 1 / 2 < q - f then f + 1
  else if f % 2 = 0 then f else f + 1

/-- Round a rational half-to-even to `d` decimal places. -/
def roundTo (d : Nat) (q : ℚ) : ℚ := (rhe (q * 10 ^ d) : ℚ) / 10 ^ d

/-- The per-cell effect of `pd.to_numeric(col, errors='coerce').round(d)`:
missing stays missing, a number is rounded, a parsable string becomes
its rounded number, and a non-parsable string becomes the missing-value
marker. -/
def convVal (d : Nat) : Val → Val
  | .na => .na
  | .num q => .num (roundTo d q)
  | .str s =>
    match parseRat s with
    | some q => .num (roundTo d q)
    | none => .na

/-- How many columns of `df` carry the name `col`. -/
def countName (df : Table) (col : String) : Nat :=
  (df.filter (fun c => c.1 == col)).length

/-- One iteration of the loop of `converter_e_arredondar` on column name
`col`: a name absent from the table is silently skipped (`if coluna in
df.columns`); a name naming exactly one column replaces that column's
cells by their converted and rounded values
(`df[coluna] = pd.to_numeric(df[coluna], errors='coerce').round(casas)`);
a duplicated name makes `df[coluna]` a `DataFrame`, on which
`pd.to_numeric` raises a `TypeError`. -/
def convStep (df : Table) (casas : Nat) (col : String) : Except String Table :=
  if countName df col = 0 then .ok df
  else if countName df col = 1 then
    .ok (df.map (fun c =>
      if c.1 = col then (c.1, c.2.map (convVal casas)) else c))
  else .error "TypeError"

/-- The `for coluna in colunas` loop of `converter_e_arredondar`, with
the surrounding `try/except`: the table is updated in place column by
column, and the first raised failure aborts the loop, after which the
function returns the table as modified so far. -/
def convLoop (casas : Nat) : Table → List String → Table
  | df, [] => df
  | df, c :: cs =>
    match convStep df casas c with
    | .ok df1 => convLoop casas df1 cs
    | .error _ => df

/-- The same loop without the `except`: propagates the first failure,
and succeeds exactly when every named column is processed without an
exception. -/
def convList (casas : Nat) : Table → List String → Except String Table
  | df, [] => .ok df
  | df, c :: cs =>
    match convStep df casas c with
    | .ok df1 => convList casas df1 cs
    | .error e => .error e

/-- `converter_e_arredondar df colunas casas_decimais` from
`cor_funcoes.py` (default precision 2). -/
def converter_e_arredondar (df : Table) (colunas : List String)
    (casas : Nat := 2) : Table :=
  convLoop casas df colunas

/-- The spec-level description of a fully successful normalization:
every column of `df` whose name is listed in `colunas` has each cell
converted and rounded; every other column is untouched. -/
def applyAll (casas : Nat) (colunas : List String) (df : Table) : Table :=
  df.map (fun c =>
    if c.1 ∈ colunas then (c.1, c.2.map (convVal casas)) else c)

theorem rhe_intCast (z : ℤ) : rhe (z : ℚ) = z := by
  unfold rhe
  rw [Int.floor_intCast]
  norm_num

theorem roundTo_idem (d : Nat) (q : ℚ) : roundTo d (roundTo d q) = roundTo d q := by
  have hne : ((10 : ℚ) ^ d) ≠ 0 := pow_ne_zero d (by norm_num)
  unfold roundTo
  rw [div_mul_cancel₀ _ hne, rhe_intCast]

theorem convVal_idem (d : Nat) (v : Val) : convVal d (convVal d v) = convVal d v := by
  cases v with
  | na => rfl
  | num q => simp [convVal, roundTo_idem]
  | str s =>
    cases hp : parseRat s with
    | none => simp [convVal, hp]
    | some q => simp [convVal, hp, roundTo_idem]

theorem map_convVal_idem (d : Nat) (l : List Val) :
    (l.map (convVal d)).map (convVal d) = l.map (convVal d) := by
  rw [List.map_map]
  exact List.map_congr_left (fun v _ => convVal_idem d v)

theorem countName_eq_zero_iff (df : Table) (col : String) :
    countName df col = 0 ↔ ∀ c ∈ df, ¬(c.1 = col) := by
  unfold countName
  rw [List.length_eq_zero, List.filter_eq_nil_iff]
  simp

theorem applyAll_nil (casas : Nat) (df : Table) : applyAll casas [] df = df := by
  unfold applyAll
  have h : ∀ c ∈ df,
      (fun c : String × List Val =>
        if c.1 ∈ ([] : List String) then (c.1, c.2.map (convVal casas)) else c) c
      = id c := by
    intro c _
    simp
  rw [List.map_congr_left h, List.map_id]

theorem convList_ok_eq (casas : Nat) (colunas : List String) :
    ∀ df df2 : Table, convList casas df colunas = .ok df2 →
      df2 = applyAll casas colunas df := by
  induction colunas with
  | nil =>
    intro df df2 h
    simp only [convList] at h
    rw [← Except.ok.inj h, applyAll_nil]
  | cons c cs ih =>
    intro df df2 h
    simp only [convList] at h
    cases hs : convStep df casas c with
    | error e => rw [hs] at h; exact absurd h (by simp)
    | ok df1 =>
      rw [hs] at h
      rw [ih df1 df2 h]
      unfold convStep at hs
      by_cases h0 : countName df c = 0
      · rw [if_pos h0] at hs
        have hdf : df = df1 := Except.ok.inj hs
        subst hdf
        unfold applyAll
        refine List.map_congr_left ?_
        intro col hcol
        have hne : ¬(col.1 = c) := (countName_eq_zero_iff df c).mp h0 col hcol
        by_cases hmem : col.1 ∈ cs <;> simp [hmem, hne]
      · rw [if_neg h0] at hs
        by_cases h1 : countName df c = 1
        · rw [if_pos h1] at hs
          have hdf : df1 = df.map (fun col =>
              if col.1 = c then (col.1, col.2.map (convVal casas)) else col) :=
            (Except.ok.inj hs).symm
          subst hdf
          unfold applyAll
          rw [List.map_map]
          refine List.map_congr_left ?_
          intro col _
          simp only [Function.comp]
          by_cases hc : col.1 = c
          · rw [if_pos hc]
            have hmem2 : col.1 ∈ c :: cs := by
              rw [hc]
              exact List.mem_cons_self c cs
            rw [if_pos hmem2]
            dsimp only
            by_cases hmem : col.1 ∈ cs
            · rw [if_pos hmem, map_convVal_idem]
            · rw [if_neg hmem]
          · rw [if_neg hc]
            have hiff : (col.1 ∈ c :: cs) ↔ col.1 ∈ cs := by
              simp [List.mem_cons, hc]
            by_cases hmem : col.1 ∈ cs
            · rw [if_pos hmem, if_pos (hiff.mpr hmem)]
            · rw [if_neg hmem, if_neg (fun hx => hmem (hiff.mp hx))]
        · rw [if_neg h1] at hs
          exact absurd hs (by simp)

theorem convLoop_of_ok (casas : Nat) (colunas : List String) :
    ∀ df df2 : Table, convList casas df colunas = .ok df2 →
      convLoop casas df colunas = df2 := by
  induction colunas with
  | nil =>
    intro df df2 h
    simp only [convList] at h
    simp only [convLoop]
    exact Except.ok.inj h
  | cons c cs ih =>
    intro df df2 h
    simp only [convList] at h
    simp only [convLoop]
    cases hs : convStep df casas c with
    | error e => rw [hs] at h; exact absurd h (by simp)
    | ok df1 =>
      rw [hs] at h
      exact ih df1 df2 h

/-- C7: when the Numeric Normalizer runs without an exception, it
returns exactly the input table with each column named in `colunas`
converted cell by cell — a non-parsable string becomes the
missing-value marker, every other cell becomes a number of at most
`casas` decimal places — and every column not named (including names
absent from the table, which are silently skipped) left unchanged. -/
theorem c7_normalizer (df : Table) (colunas : List String) (casas : Nat)
    (df2 : Table) (h : convList casas df colunas = .ok df2) :
    converter_e_arredondar df colunas casas = df2
    ∧ df2 = applyAll casas colunas df
    ∧ (∀ s, parseRat s = none → convVal casas (Val.str s) = Val.na)
    ∧ (∀ v, convVal casas v = Val.na
        ∨ ∃ z : ℤ, convVal casas v = Val.num ((z : ℚ) / 10 ^ casas)) := by
  refine ⟨convLoop_of_ok casas colunas df df2 h,
    convList_ok_eq casas colunas df df2 h, ?_, ?_⟩
  · intro s hs
    simp [convVal, hs]
  · intro v
    cases v with
    | na => exact Or.inl rfl
    | num q => exact Or.inr ⟨rhe (q * 10 ^ casas), rfl⟩
    | str s =>
      cases hp : parseRat s with
      | none => exact Or.inl (by simp [convVal, hp])
      | some q =>
        refine Or.inr ⟨rhe (q * 10 ^ casas), ?_⟩
        simp [convVal, hp, roundTo]

/-- Concrete instance of `c7_normalizer`: a column holding a missing
cell and a non-parsable string normalizes to two missing cells. -/
theorem c7_normalizer_witness :
    converter_e_arredondar [("X", [Val.na, Val.str "abc"])] ["X"] 2
        = [("X", [Val.na, Val.na])]
    ∧ [("X", [Val.na, Val.na])] = applyAll 2 ["X"] [("X", [Val.na, Val.str "abc"])]
    ∧ (∀ s, parseRat s = none → convVal 2 (Val.str s) = Val.na)
    ∧ (∀ v, convVal 2 v = Val.na
        ∨ ∃ z : ℤ, convVal 2 v = Val.num ((z : ℚ) / 10 ^ 2)) :=
  c7_normalizer [("X", [Val.na, Val.str "abc"])] ["X"] 2
    [("X", [Val.na, Val.na])] rfl

/-- C2 as stated is false: a `TypeError` raised midway through the
column loop (here by the duplicated column name `A`) leaves the column
`B`, processed before the failure, converted in place — the function
returns a partially modified table, not the unmodified input. -/
theorem c2_counterexample :
    (∃ e, convList 2 [("B", [Val.str "x"]), ("A", [Val.na]), ("A", [Val.na])]
        ["B", "A"] = .error e)
    ∧ converter_e_arredondar
        [("B", [Val.str "x"]), ("A", [Val.na]), ("A", [Val.na])] ["B", "A"] 2
      ≠ [("B", [Val.str "x"]), ("A", [Val.na]), ("A", [Val.na])] :=
  ⟨⟨"TypeError", rfl⟩, by decide⟩

/-- C2 (amended): the Numeric Normalizer never propagates a failure to
the caller; either every named column is processed without an exception
(and the loop's result is that full conversion), or the named columns
split around a first failing one, and the function returns the table
with exactly the columns before the failure converted — possibly
partially modified, not the unmodified input. -/
theorem c2_amended (df : Table) (colunas : List String) (casas : Nat) :
    convList casas df colunas = .ok (converter_e_arredondar df colunas casas)
    ∨ ∃ pre c post dfMid, colunas = pre ++ c :: post
        ∧ convList casas df pre = .ok dfMid
        ∧ (∃ e, convStep dfMid casas c = .error e)
        ∧ converter_e_arredondar df colunas casas = dfMid := by
  unfold converter_e_arredondar
  induction colunas generalizing df with
  | nil => exact Or.inl rfl
  | cons c cs ih =>
    cases hs : convStep df casas c with
    | ok df1 =>
      rcases ih df1 with hL | ⟨pre, c', post, dfMid, hsplit, hpre, herr, hres⟩
      · left
        simp only [convList, convLoop, hs]
        exact hL
      · right
        refine ⟨c :: pre, c', post, dfMid, by rw [hsplit, List.cons_append], ?_, herr, ?_⟩
        · simp only [convList, hs]
          exact hpre
        · simp only [convLoop, hs]
          exact hres
    | error e =>
      right
      refine ⟨[], c, cs, df, rfl, rfl, ⟨e, hs⟩, ?_⟩
      simp only [convLoop, hs]

/-- Concrete instance of `c2_amended` at the counterexample input. -/
theorem c2_amended_witness :
    convList 2 [("B", [Val.str "x"]), ("A", [Val.na]), ("A", [Val.na])] ["B", "A"]
      = .ok (converter_e_arredondar
          [("B", [Val.str "x"]), ("A", [Val.na]), ("A", [Val.na])] ["B", "A"] 2)
    ∨ ∃ pre c post dfMid, ["B", "A"] = pre ++ c :: post
        ∧ convList 2 [("B", [Val.str "x"]), ("A", [Val.na]), ("A", [Val.na])] pre
            = .ok dfMid
        ∧ (∃ e, convStep dfMid 2 c = .error e)
        ∧ converter_e_arredondar
            [("B", [Val.str "x"]), ("A", [Val.na]), ("A", [Val.na])] ["B", "A"] 2
          = dfMid :=
  c2_amended [("B", [Val.str "x"]), ("A", [Val.na]), ("A", [Val.na])] ["B", "A"] 2

end CorFuncoes
